import Mathlib

/-!
Verification development for the lczero-client worker (`lc0_main.go` and
`src/client/client_http.go`).  The Go source is shallowly embedded: pure
logic (string parsing of the lc0 subprocess output, retry loops, match
bucketing, cache eviction and verification, backend selection) becomes
executable Lean functions; external collaborators (the Go standard
library's `strconv.ParseFloat`/`strconv.Atoi`, the chess PGN library,
gzip and sha256) are abstracted as function parameters.  All strings are
treated as sequences of characters; the Go code indexes byte positions,
which coincide for the ASCII protocol lines modelled here.
-/

namespace LcZeroClient

/-! ### Character-list string helpers (Go `strings` package semantics) -/

/-- Boolean prefix test on character lists (Go `strings.HasPrefix`). -/
def listPre : List Char → List Char → Bool
  | [], _ => true
  | _ :: _, [] => false
  | a :: as, b :: bs => a = b && listPre as bs

/-- Index (from position `i`) of the first occurrence of `needle` in `hay`
(Go `strings.Index` scan). -/
def findFrom (needle : List Char) : List Char → Nat → Option Nat
  | [], i => if listPre needle [] then some i else none
  | c :: t, i => if listPre needle (c :: t) then some i else findFrom needle t (i + 1)

/-- Index of the last occurrence of `needle` (Go `strings.LastIndex` scan),
carrying the best match found so far. -/
def lastIdxAux (needle : List Char) : List Char → Nat → Option Nat → Option Nat
  | [], i, best => if listPre needle [] then some i else best
  | c :: t, i, best =>
      lastIdxAux needle t (i + 1) (if listPre needle (c :: t) then some i else best)

/-- Go `strings.HasPrefix`. -/
def hasPrefixS (s p : String) : Bool := listPre p.data s.data

/-- Go `strings.HasSuffix`. -/
def hasSuffixS (s p : String) : Bool := listPre p.data.reverse s.data.reverse

/-- Go `strings.Index`: first byte index of `sub` in `s`, `-1` if absent. -/
def strIndexOf (s sub : String) : Int :=
  match findFrom sub.data s.data 0 with
  | some n => (n : Int)
  | none => -1

/-- Go `strings.LastIndex`: last byte index of `sub` in `s`, `-1` if absent. -/
def strLastIndexOf (s sub : String) : Int :=
  match lastIdxAux sub.data s.data 0 none with
  | some n => (n : Int)
  | none => -1

/-- Go `strings.Contains`. -/
def containsS (s sub : String) : Bool := decide (0 ≤ strIndexOf s sub)

/-- Go slice expression `s[a:b]` (for the in-range uses in the client;
out-of-range slices panic in Go and are modelled totally here). -/
def strSlice (s : String) (a b : Int) : String :=
  ⟨(s.data.take b.toNat).drop a.toNat⟩

/-- Splitting a character list on the space character, keeping empty
fields (Go `strings.Split(s, " ")`). -/
def splitSp : List Char → List (List Char)
  | [] => [[]]
  | c :: rest =>
    match splitSp rest with
    | [] => [[]]
    | w :: ws => if c = ' ' then [] :: w :: ws else (c :: w) :: ws

/-- Go `strings.Split(line, " ")`. -/
def splitSpaces (s : String) : List String := (splitSp s.data).map (fun l => ⟨l⟩)

/-- Go `strings.TrimPrefix`. -/
def trimPrefixS (s p : String) : String :=
  if hasPrefixS s p then ⟨s.data.drop p.data.length⟩ else s

/-- Go `strings.TrimRight(s, "*")`: drop all trailing `*` characters. -/
def trimRightStars (s : String) : String :=
  ⟨(s.data.reverse.dropWhile (fun c => c = '*')).reverse⟩

/-- Go `strings.Join(parts, " ")`. -/
def joinSpace : List String → String
  | [] => ""
  | [x] => x
  | x :: y :: rest => x ++ " " ++ joinSpace (y :: rest)

/-! ### Data model: game info and engine events (`lc0_main.go`) -/

/-- The `gameInfo` struct: resign false-positive threshold is `-1` when
unset (the Go code uses a float64; the plumbing is modelled over `ℚ`). -/
structure GameInfo where
  pgn : String
  fname : String
  fp_threshold : ℚ
  player1 : String
  result : String
deriving DecidableEq, Repr

/-- Events published by the stdout-scanning goroutine of
`cmdWrapper.launch`: a completed game on the `gi` channel, a best move on
the `BestMove` channel, or the backend-retry signal on `Retry`. -/
inductive Event where
  | game (gi : GameInfo)
  | best (move : String)
  | retry
deriving DecidableEq, Repr

/-- Outcome of processing one output line: either a (possibly empty) list
of published events, or process termination via `log.Fatal`. -/
inductive LineOut where
  | ok (evs : List Event)
  | fatal
deriving DecidableEq, Repr

/-- The mutable state touched by the stdout-scanning goroutine: the local
`last_fp_threshold` plus the globals `hasCudnnFp16`, `testedCudnnFp16`,
`c.Version` and `gpuType`. -/
structure PState where
  last_fp_threshold : ℚ
  hasCudnnFp16 : Bool
  testedCudnnFp16 : Bool
  version : String
  gpuType : String
deriving DecidableEq, Repr

/-- The command-line globals read by the scanner: `--backend-opts` and
`--report-gpu`. -/
structure Config where
  backopts : String
  report_gpu : Bool
deriving DecidableEq, Repr

/-- Abstraction of the external chess library (`github.com/Tilps/chess`)
used by `convertMovesToPGN`: whether a move list (with optional FEN start)
replays without a `MoveStr` error, the `MarshalText` rendering of the
replayed game, and the `game2` unmarshal/`String()` round trip. -/
structure ChessLib where
  replayOk : Option String → List String → Bool
  marshal : Option String → List String → String
  roundtrip : String → String

/-- External helper functions: `strconv.ParseFloat` (64- and 32-bit uses
are both abstracted; `none` models a parse error), `strconv.Atoi`
(`none` models an error, in which case Go's `Atoi` also returns `0`),
and the chess library. -/
structure Ext where
  pf : String → Option ℚ
  atoi : String → Option Int
  lib : ChessLib

/-- Result tag appended by `convertMovesToPGN` when the marshalled game
ends in `" *"` and a result is known. -/
def resultTag (result : String) : String :=
  if result = "whitewon" then "1-0"
  else if result = "blackwon" then "0-1"
  else "1/2-1/2"

/-- The `convertMovesToPGN` function: strips a trailing
`from_fen <6 fen fields>` suffix, replays the moves through the chess
library (a `MoveStr` error is `log.Fatalf`, modelled as `none`), patches
an unterminated `" *"` outcome with the reported result, round-trips the
text, and appends the opening-line ply comment. -/
def convertMovesToPGN (lib : ChessLib) (moves : List String) (result : String)
    (start_ply_count : Int) : Option String :=
  let fen : Option String :=
    if moves.length > 6 ∧ moves.getD (moves.length - 7) "" = "from_fen"
    then some (joinSpace (moves.drop (moves.length - 6))) else none
  let moves' : List String :=
    if moves.length > 6 ∧ moves.getD (moves.length - 7) "" = "from_fen"
    then moves.take (moves.length - 7) else moves
  if lib.replayOk fen moves' then
    let b_str := lib.marshal fen moves'
    let b :=
      if hasSuffixS b_str " *" ∧ result ≠ ""
      then trimRightStars b_str ++ resultTag result else b_str
    some (lib.roundtrip b ++ " \x7bOL: " ++ toString start_ply_count ++ "\x7d")
  else none

/-! ### The `resign_report` and `gameready` line handlers -/

/-- The scan in the `resign_report` case: the index after the last
`fp_threshold` token, `-1` if the token is absent. -/
def resignFpIdxAux : List String → Nat → Int → Int
  | [], _, acc => acc
  | a :: rest, i, acc =>
      resignFpIdxAux rest (i + 1) (if a = "fp_threshold" then ((i : Int) + 1) else acc)

/-- Position of the value following the `fp_threshold` marker in a
`resign_report` line's fields. -/
def resignFpIdx (args : List String) : Int := resignFpIdxAux args 0 (-1)

/-- New value of `last_fp_threshold` after a `resign_report` line: the
parsed threshold, `-1` on a parse failure, unchanged when the marker is
absent. -/
def resignNewLast (pf : String → Option ℚ) (line : String) (last : ℚ) : ℚ :=
  let args := splitSpaces line
  let i := resignFpIdx args
  if 0 ≤ i then
    match pf (args.getD i.toNat "") with
    | some v => v
    | none => -1
  else last

/-- The fields a well-formed `gameready` line contributes to the
published game, besides the pending resign threshold. -/
structure GameReadyData where
  pgn : String
  fname : String
  player1 : String
  result : String
deriving DecidableEq, Repr

/-- Outcome of parsing one `gameready` line: skipped as malformed
(markers missing), fatal (the chess library cannot replay the move
list), or a parsed game. -/
inductive GRResult where
  | skip
  | fatalOut
  | emit (d : GameReadyData)
deriving DecidableEq, Repr

/-- The parsing part of the `gameready` case of the line switch: locate
the `trainingfile`/`gameid`/`moves` markers (skipping the line if any is
missing), harvest the optional `player1`/`result`/`play_start_ply`
fields, and convert the move list to PGN (fatal if the chess library
cannot replay it). -/
def handleGameReadyCore (ext : Ext) (line : String) : GRResult :=
  let idx1 := strIndexOf line "trainingfile"
  let idx2 := strLastIndexOf line "gameid"
  let idx3 := strLastIndexOf line "moves"
  if idx1 < 0 ∨ idx2 < 0 ∨ idx3 < 0 then .skip
  else
    let idx4 := strLastIndexOf line "player1"
    let idx5 := strLastIndexOf line "result"
    let result := if idx5 < 0 then "" else strSlice line (idx5 + 7) (idx3 - 1)
    let idx5' := if idx5 < 0 then idx3 else idx5
    let player := if 0 ≤ idx4 then strSlice line (idx4 + 8) (idx5' - 1) else ""
    let idx6 := strLastIndexOf line "play_start_ply"
    let start_ply_count : Int :=
      if 0 ≤ idx6 then (ext.atoi (strSlice line (idx6 + 15) (idx4 - 1))).getD 0 else -1
    let file := strSlice line (idx1 + 13) (idx2 - 1)
    let moves := splitSpaces (strSlice line (idx3 + 6) (line.data.length : Int))
    match convertMovesToPGN ext.lib moves result start_ply_count with
    | none => .fatalOut
    | some pgn => .emit { pgn := pgn, fname := file, player1 := player, result := result }

/-- The `gameready` case of the line switch: a skipped line leaves the
state alone, a fatal conversion kills the process, and a parsed game is
published carrying the pending resign threshold, which then resets to
`-1`. -/
def handleGameReady (ext : Ext) (st : PState) (line : String) : PState × LineOut :=
  match handleGameReadyCore ext line with
  | .skip => (st, .ok [])
  | .fatalOut => (st, .fatal)
  | .emit d =>
      ({ st with last_fp_threshold := -1 },
       .ok [.game { pgn := d.pgn, fname := d.fname, fp_threshold := st.last_fp_threshold,
                    player1 := d.player1, result := d.result }])

/-- Classification of one output line by the ordered prefix/contains
tests of the `switch` statement in the stdout-scanning goroutine of
`cmdWrapper.launch` (evaluated in source order). -/
inductive LineClass where
  | unknownFlag
  | gpuNoFp16
  | resignReport
  | gameready
  | bestmove
  | idNameLc0
  | infoLine
  | gpuPre
  | selectedDevice
  | blas
  | errorCheckFailed
  | computeCap
  | other
deriving DecidableEq, Repr

/-- The dispatch tests of the scanner switch, in source order. -/
def classifyLine (line : String) : LineClass :=
  if hasPrefixS line "Unknown command line flag" then .unknownFlag
  else if containsS line "Your GPU doesn't support FP16" then .gpuNoFp16
  else if hasPrefixS line "resign_report " then .resignReport
  else if hasPrefixS line "gameready " then .gameready
  else if hasPrefixS line "bestmove " then .bestmove
  else if hasPrefixS line "id name Lc0 " then .idNameLc0
  else if hasPrefixS line "info" then .infoLine
  else if hasPrefixS line "GPU: " then .gpuPre
  else if hasPrefixS line "Selected device: " then .selectedDevice
  else if hasPrefixS line "BLAS" then .blas
  else if hasPrefixS line "*** ERROR check failed" then .errorCheckFailed
  else if hasPrefixS line "GPU compute capability:" then .computeCap
  else .other

/-- One iteration of the stdout-scanner switch in `cmdWrapper.launch`:
the case selected by `classifyLine` runs the corresponding handler body. -/
def processLine (cfg : Config) (ext : Ext) (st : PState) (line : String) :
    PState × LineOut :=
  match classifyLine line with
  | .unknownFlag => (st, .fatal)
  | .gpuNoFp16 =>
    if cfg.backopts = "" then ({ st with hasCudnnFp16 := false }, .ok [.retry])
    else (st, .fatal)
  | .resignReport =>
    ({ st with last_fp_threshold := resignNewLast ext.pf line st.last_fp_threshold },
     .ok [])
  | .gameready => handleGameReady ext st line
  | .bestmove =>
    ({ st with testedCudnnFp16 := true }, .ok [.best ((splitSpaces line).getD 1 "")])
  | .idNameLc0 => ({ st with version := (splitSpaces line).getD 3 "" }, .ok [])
  | .infoLine => ({ st with testedCudnnFp16 := true }, .ok [])
  | .gpuPre =>
    ({ st with gpuType :=
        if cfg.report_gpu ∧ cfg.backopts = "" then trimPrefixS line "GPU: "
        else st.gpuType }, .ok [])
  | .selectedDevice =>
    ({ st with gpuType :=
        if cfg.report_gpu ∧ cfg.backopts = "" then trimPrefixS line "Selected device: "
        else st.gpuType }, .ok [])
  | .blas =>
    ({ st with gpuType :=
        if cfg.report_gpu ∧ cfg.backopts = "" then "None" else st.gpuType }, .ok [])
  | .errorCheckFailed => (st, .fatal)
  | .computeCap =>
    ({ st with testedCudnnFp16 :=
        if 7 ≤ ((ext.pf ((splitSpaces line).getD 3 "")).getD 0) then true
        else st.testedCudnnFp16 }, .ok [])
  | .other => (st, .ok [])

/-- Folding the scanner over a list of output lines, stopping at a
`log.Fatal`: returns the final state, the events published in order, and
whether a fatal line was hit. -/
def processLines (cfg : Config) (ext : Ext) : PState → List String → PState × List Event × Bool
  | st, [] => (st, [], false)
  | st, l :: rest =>
    match processLine cfg ext st l with
    | (st', .fatal) => (st', [], true)
    | (st', .ok evs) =>
        let r := processLines cfg ext st' rest
        (r.1, evs ++ r.2.1, r.2.2)

/-! ### The `uploadGame` retry loop -/

/-- What one iteration of the `uploadGame` loop observes:
`BuildUploadRequest` error, `httpClient.Do` error, response-body read
error (the only retried failure), a non-200 response whose body contains
`" upgrade "` (fatal), or a successful exchange. -/
inductive UploadOutcome where
  | burErr
  | doErr
  | readErr
  | upgrade
  | okResp
deriving DecidableEq, Repr

/-- How `uploadGame` returns. -/
inductive UploadResult where
  | success
  | errBuild
  | errDo
  | tooMany
  | fatalUpgrade
deriving DecidableEq, Repr

/-- Observable trace of one `uploadGame` call: its result, how many loop
iterations (upload attempts) ran, and the `time.Sleep` durations in
seconds, in order. -/
structure UploadTrace where
  result : UploadResult
  attempts : Nat
  sleeps : List Nat
deriving DecidableEq, Repr

/-- The `uploadGame` loop body: `retryCount` is incremented on entry and
the loop aborts with "Too many retries" once it exceeds 3 (modelled by
the `budget` counter, which counts the remaining admissible increments);
a body-read error sleeps `2 << retryCount` seconds and retries, every
other branch leaves the loop. -/
def uploadIter (outcomes : Nat → UploadOutcome) :
    Nat → Nat → Nat → List Nat → UploadTrace
  | 0, _, attempts, sleeps => ⟨.tooMany, attempts, sleeps⟩
  | budget + 1, rc, attempts, sleeps =>
    let rc' := rc + 1
    match outcomes rc' with
    | .burErr => ⟨.errBuild, attempts + 1, sleeps⟩
    | .doErr => ⟨.errDo, attempts + 1, sleeps⟩
    | .readErr => uploadIter outcomes budget rc' (attempts + 1) (sleeps ++ [2 <<< rc'])
    | .upgrade => ⟨.fatalUpgrade, attempts + 1, sleeps⟩
    | .okResp => ⟨.success, attempts + 1, sleeps⟩

/-- The `uploadGame` retry loop, driven by the outcome of each attempt
(attempts are numbered from 1, matching `retryCount`). -/
def uploadGame (outcomes : Nat → UploadOutcome) : UploadTrace :=
  uploadIter outcomes 3 0 0 []

/-- The error string `uploadGame` returns for each result (`none` for
success; the upgrade branch is `log.Fatal` and never returns). -/
def uploadErrString : UploadResult → Option String
  | .success => none
  | .errBuild => some "BuildUploadRequest error"
  | .errDo => some "http.Do error"
  | .tooMany => some "UploadGame failed: Too many retries"
  | .fatalUpgrade => none

/-! ### Match-mode bucketing and slot pairing (`playMatch` uploader) -/

/-- The `resultToNum` function. -/
def resultToNum (result : String) : Int :=
  if result = "whitewon" then 1
  else if result = "blackwon" then -1
  else 0

/-- The two per-color queues of not-yet-uploaded match games kept by the
`playMatch` uploader goroutine. -/
structure MatchBuckets where
  flipped : List GameInfo
  normal : List GameInfo
deriving DecidableEq, Repr

/-- Bucketing of an incoming game: games where the local instance played
black go to `flipped`, all others to `normal` (appended, so the most
recently completed game is last). -/
def bucketAdd (bs : MatchBuckets) (gi : GameInfo) : MatchBuckets :=
  if gi.player1 = "black" then { bs with flipped := bs.flipped ++ [gi] }
  else { bs with normal := bs.normal ++ [gi] }

/-- Pairing of the current server slot with a completed game: a slot with
`Flip` set takes the most recent game of the `flipped` bucket and uploads
the negated numeric result, a slot without `Flip` takes the most recent
game of the `normal` bucket and uploads the result unnegated; an empty
matching bucket pairs nothing. -/
def pairSlot (flip : Bool) (bs : MatchBuckets) : Option (GameInfo × Int × MatchBuckets) :=
  if flip then
    match bs.flipped.getLast? with
    | some gi => some (gi, -resultToNum gi.result, { bs with flipped := bs.flipped.dropLast })
    | none => none
  else
    match bs.normal.getLast? with
    | some gi => some (gi, resultToNum gi.result, { bs with normal := bs.normal.dropLast })
    | none => none

/-! ### Asset cache: eviction, verification, resolution (`removeAllExcept`,
`checkValidNetwork`, `acquireLock`, `getNetwork`) -/

/-- One entry of the cache directory: name, stored (gzip-compressed)
content as bytes, and modification time in nanoseconds. -/
structure FileEntry where
  name : String
  content : List Nat
  modTime : Int
deriving DecidableEq, Repr

/-- Nanoseconds per hour (`time.Hour`). -/
def nsPerHour : Int := 3600000000000

/-- Numeric value of a digit string. -/
def natFromDigits (ds : List Char) : Nat :=
  ds.foldl (fun a c => a * 10 + (c.toNat - 48)) 0

/-- The external `time.ParseDuration`, modelled for the whole-hour
strings the client passes (`"4h"`); a string of any other shape yields
`0`, matching the code's discarded error (`timeLimit, _ := ...`). -/
def parseDurationNs (s : String) : Int :=
  let ds := s.data.takeWhile Char.isDigit
  if ds ≠ [] ∧ s.data.dropWhile Char.isDigit = ['h']
  then (natFromDigits ds : Int) * nsPerHour else 0

/-- The `removeAllExcept` loop: every entry other than the one named
`sha` whose age (`time.Since`, i.e. `now - modTime`) is not strictly
below the parsed retention duration is removed.  Returns the kept
entries and the removed names. -/
def removeAllExceptSplit (files : List FileEntry) (sha keepTime : String) (now : Int) :
    List FileEntry × List String :=
  match files with
  | [] => ([], [])
  | f :: rest =>
    let r := removeAllExceptSplit rest sha keepTime now
    if f.name = sha then (f :: r.1, r.2)
    else if now - f.modTime < parseDurationNs keepTime then (f :: r.1, r.2)
    else (r.1, f.name :: r.2)

/-- Names removed by `removeAllExcept`. -/
def removeAllExcept (files : List FileEntry) (sha keepTime : String) (now : Int) :
    List String :=
  (removeAllExceptSplit files sha keepTime now).2

/-- Abstraction of the external gzip decompressor and sha256 hex digest
used by `checkValidNetwork` (`none` models a gzip header or read error). -/
structure Crypto where
  gunzip : List Nat → Option (List Nat)
  sha256hex : List Nat → String

/-- First entry named `n`, if any. -/
def lookupFile : List FileEntry → String → Option (List Nat)
  | [], _ => none
  | f :: rest, n => if f.name = n then some f.content else lookupFile rest n

/-- Deletion of the entry named `n` (`os.Remove`). -/
def removeFile : List FileEntry → String → List FileEntry
  | [], _ => []
  | f :: rest, n => if f.name = n then removeFile rest n else f :: removeFile rest n

/-- Replacement of the entry named `n` by fresh content (the temp-file
write plus `os.Rename` of `DownloadNetwork`). -/
def putFile (fs : List FileEntry) (n : String) (content : List Nat) (now : Int) :
    List FileEntry :=
  removeFile fs n ++ [⟨n, content, now⟩]

/-- The cache directory name used by `getNetwork`. -/
def cacheDir : String := "client-cache"

/-- The path `filepath.Join(dir, sha)`. -/
def cachePath (sha : String) : String := cacheDir ++ "/" ++ sha

/-- The `checkValidNetwork` function: a missing file is a stat error; a
present file is gunzipped and hashed, and any failure (bad gzip, digest
mismatch) deletes the file and reports an error; success returns the
path with the directory unchanged. -/
def checkValidNetwork (cr : Crypto) (fs : List FileEntry) (sha : String) :
    List FileEntry × Except String String :=
  match lookupFile fs sha with
  | none => (fs, .error "stat: no such file")
  | some content =>
    match cr.gunzip content with
    | none => (removeFile fs sha, .error "gzip error")
    | some raw =>
      if sha ≠ cr.sha256hex raw then (removeFile fs sha, .error "sha mismatch")
      else (fs, .ok (cachePath sha))

/-- Whether the directory holds a verified copy of `sha`. -/
def validCached (cr : Crypto) (fs : List FileEntry) (sha : String) : Bool :=
  match lookupFile fs sha with
  | none => false
  | some content =>
    match cr.gunzip content with
    | none => false
    | some raw => sha = cr.sha256hex raw

/-- Name of the advisory lock file for an asset (`acquireLock`). -/
def lockName (sha : String) : String := sha ++ ".lck"

/-- The sentinel retention policy meaning "keep forever". -/
def infKeep : String := "inf"

/-- Error message for the `lockfile.ErrBusy` branch of `getNetwork`. -/
def lockBusyMsg : String := "Download initiated by other client"

/-- Result of one `getNetwork` call: the final directory contents, the
returned path or error, and whether a download request was issued. -/
structure GNOut where
  fs : List FileEntry
  res : Except String String
  downloaded : Bool
deriving Repr

/-- The `getNetwork` function: evict per the retention policy (unless
infinite), use a verified cached copy if present, otherwise try the
per-asset advisory lock (busy means another client is downloading and no
download is attempted), else download (temp file renamed into place) and
re-verify.  `server` models `client.DownloadNetwork`'s fetched bytes
(`none` is a download error); `locks` holds the lock files currently
held by other processes. -/
def getNetwork (cr : Crypto) (server : String → Option (List Nat)) (locks : List String)
    (fs0 : List FileEntry) (sha keepTime : String) (now : Int) : GNOut :=
  let fs1 := if keepTime ≠ infKeep then (removeAllExceptSplit fs0 sha keepTime now).1 else fs0
  let c1 := checkValidNetwork cr fs1 sha
  match c1.2 with
  | .ok p => ⟨c1.1, .ok p, false⟩
  | .error _ =>
    if locks.contains (lockName sha) then ⟨c1.1, .error lockBusyMsg, false⟩
    else
      match server sha with
      | none => ⟨c1.1, .error "Network download failed", true⟩
      | some content =>
        let c2 := checkValidNetwork cr (putFile c1.1 sha content now) sha
        ⟨c2.1, c2.2, true⟩

/-! ### Backend capability probing and selection (`checkLc0`,
`cmdWrapper.launch`) -/

/-- The capability globals set by `checkLc0`. -/
structure Caps where
  hasCudnnFp16 : Bool
  hasCudnn : Bool
  hasDx : Bool
  hasOpenCL : Bool
  hasBlas : Bool
deriving DecidableEq, Repr

/-- The `checkLc0` probe over the engine's `--help` output: each backend
name sets its flag; `cudnn` is cleared again when its only occurrence is
inside `cudnn-fp16`. -/
def checkLc0 (out : String) : Caps :=
  let hasBlas := containsS out "blas"
  let hasDx := containsS out "dx12"
  let hasCudnnFp16 := containsS out "cudnn-fp16"
  let hasCudnn0 := containsS out "cudnn"
  let hasCudnn :=
    if hasCudnn0 ∧ hasCudnnFp16 ∧ strIndexOf out "cudnn" = strLastIndexOf out "cudnn"
    then false else hasCudnn0
  let hasOpenCL := containsS out "opencl"
  ⟨hasCudnnFp16, hasCudnn, hasDx, hasOpenCL, hasBlas⟩

/-- Which branch of the `--backend-opts` synthesis chain in
`cmdWrapper.launch` fires. -/
inductive BackendSel where
  | override (s : String)
  | fp16
  | cudnn
  | dx
  | opencl
  | nosel
deriving DecidableEq, Repr

/-- The backend-selection chain of `cmdWrapper.launch` (lines 368-389):
an operator override wins, otherwise the highest-preference available
capability, otherwise no `--backend-opts` argument at all. -/
def launchBackendSel (backopts : String) (caps : Caps) : BackendSel :=
  if backopts ≠ "" then .override backopts
  else if caps.hasCudnnFp16 then .fp16
  else if caps.hasCudnn then .cudnn
  else if caps.hasDx then .dx
  else if caps.hasOpenCL then .opencl
  else .nosel

/-- The exact `--backend-opts` argument appended for each selection
(`sGpu` is the `,gpu=N` suffix), or `none` when no argument is appended. -/
def backendOptsArg (backopts sGpu : String) (caps : Caps) : Option String :=
  match launchBackendSel backopts caps with
  | .override s => some ("--backend-opts=" ++ s)
  | .fp16 => some ("--backend-opts=backend=cudnn-fp16" ++ sGpu)
  | .cudnn => some ("--backend-opts=backend=cudnn" ++ sGpu)
  | .dx => some ("--backend-opts=check(freq=1e-5,atol=5e-1,dx12" ++ sGpu ++ ")")
  | .opencl => some ("--backend-opts=backend=opencl" ++ sGpu)
  | .nosel => none

/-- Preference order of the synthesized backends: smaller is preferred
(`cudnn-fp16` first, then `cudnn`, `dx12` check mode, `opencl`). -/
def prefRank : BackendSel → Nat
  | .override _ => 0
  | .fp16 => 0
  | .cudnn => 1
  | .dx => 2
  | .opencl => 3
  | .nosel => 4

/-! ### The `train` orchestration loop -/

/-- One wakeup of the `train` select loop. -/
inductive TrainEvent where
  | retry
  | done
  | bestMove (ok : Bool)
  | giClosed
  | gi (g : GameInfo)
deriving DecidableEq, Repr

/-- The state threaded through the `train` loop: the two capability
globals it reads and writes, progress tracking, and the upload workers
spawned so far, each recorded with the `uploadGame` error its goroutine
computed (and discarded). -/
structure TState where
  hasCudnnFp16 : Bool
  testedCudnnFp16 : Bool
  numGames : Nat
  progressOrKill : Bool
  uploads : List (GameInfo × Option String)
deriving DecidableEq, Repr

/-- How the `train` select loop was left. -/
inductive TrainExit where
  | retryExit
  | normalExit
deriving DecidableEq, Repr

/-- The `train` select loop: the `Retry` signal returns immediately
(before `wg.Wait`); `doneCh` kills the subprocess and exits normally;
best moves are swallowed; a closed `gi` channel either revokes
`cudnn-fp16` and retries (when the capability was untested and no
override is set) or exits normally; each received game spawns an upload
worker whose error is discarded. -/
def trainLoop (up : GameInfo → Option String) (cfg : Config) :
    TState → List TrainEvent → TState × TrainExit
  | st, [] => (st, .normalExit)
  | st, e :: rest =>
    match e with
    | .retry => (st, .retryExit)
    | .done => ({ st with progressOrKill := true }, .normalExit)
    | .bestMove _ => trainLoop up cfg st rest
    | .giClosed =>
      if st.hasCudnnFp16 ∧ st.testedCudnnFp16 = false ∧ cfg.backopts = ""
      then ({ st with hasCudnnFp16 := false }, .retryExit)
      else (st, .normalExit)
    | .gi g =>
      trainLoop up cfg
        { st with testedCudnnFp16 := true, numGames := st.numGames + 1,
                  progressOrKill := true, uploads := st.uploads ++ [(g, up g)] }
        rest

/-- What a `train` call returns and leaves behind: the error result,
whether `wg.Wait` ran before returning (it does not on the retry path),
the upload records, and the `hasCudnnFp16` global afterwards. -/
structure TrainResult where
  err : Option String
  joined : Bool
  uploads : List (GameInfo × Option String)
  fp16After : Bool
deriving DecidableEq, Repr

/-- The `train` function around its select loop: a retry exit returns
the "retry" error without joining the upload workers; a normal exit
joins them and fails only when no game was produced and no kill was
requested. -/
def trainModel (up : GameInfo → Option String) (cfg : Config) (st0 : TState)
    (events : List TrainEvent) : TrainResult :=
  match trainLoop up cfg st0 events with
  | (st, .retryExit) => ⟨some "retry", false, st.uploads, st.hasCudnnFp16⟩
  | (st, .normalExit) =>
    ⟨if st.progressOrKill then none
      else some "Client self-exited without producing any games.",
     true, st.uploads, st.hasCudnnFp16⟩

/-! ### The HTTP client's `NextGame` (`src/client/client_http.go`) -/

/-- The `NextGameResponse` struct (`Type` is a Go field name;
`typ` here). -/
structure NextGameResponse where
  typ : String
  trainingId : Nat
  networkId : Nat
  sha : String
  candidateSha : String
  params : String
  flip : Bool
  matchGameId : Nat
  keepTime : String
  bookUrl : String
  bookSha : String
deriving DecidableEq, Repr

/-- The `NextGame` wrapper: `postParams` yields a decoded response and a
possible transport/decode error; an empty `Sha` is turned into an error
regardless. -/
def NextGame (resp : NextGameResponse) (postErr : Option String) :
    NextGameResponse × Option String :=
  if resp.sha.length = 0 then (resp, some "Server gave back empty SHA")
  else (resp, postErr)

/-! ### Concrete instantiations of the abstracted external collaborators,
used to exercise the theorems on closed inputs -/

/-- A chess library that replays every move list and renders a fixed
unterminated game text. -/
def chessLib0 : ChessLib := ⟨fun _ _ => true, fun _ _ => "1. e4 *", fun s => s⟩

/-- External functions where only the float string "0.5" parses. -/
def ext0 : Ext :=
  ⟨fun s => if s = "0.5" then some ((1 : ℚ) / 2) else none, fun _ => none, chessLib0⟩

/-- A chess library that rejects every move list (every `MoveStr` call
errors). -/
def chessLibBad : ChessLib := ⟨fun _ _ => false, fun _ _ => "", fun s => s⟩

/-- External functions around the rejecting chess library. -/
def extBad : Ext := ⟨fun _ => none, fun _ => none, chessLibBad⟩

/-- A crypto model whose decompressor is the identity and whose digest
distinguishes the byte string `[7]`. -/
def crypto0 : Crypto := ⟨fun b => some b, fun raw => if raw = [7] then "aa" else "zz"⟩

/-- A server that always serves the byte string `[7]`. -/
def server0 : String → Option (List Nat) := fun _ => some [7]

/-- A sample completed game. -/
def gi0 : GameInfo := ⟨"pgn", "f", -1, "", ""⟩

/-- The non-upload observables of the `train` loop state. -/
def TState.core (st : TState) : Bool × Bool × Nat × Bool :=
  (st.hasCudnnFp16, st.testedCudnnFp16, st.numGames, st.progressOrKill)

/-! ### Helper lemmas -/

/-- Unfolding of one `uploadGame` loop iteration with budget left. -/
theorem uploadIter_succ (o : Nat → UploadOutcome) (b rc a : Nat) (s : List Nat) :
    uploadIter o (b + 1) rc a s =
      match o (rc + 1) with
      | .burErr => ⟨.errBuild, a + 1, s⟩
      | .doErr => ⟨.errDo, a + 1, s⟩
      | .readErr => uploadIter o b (rc + 1) (a + 1) (s ++ [2 <<< (rc + 1)])
      | .upgrade => ⟨.fatalUpgrade, a + 1, s⟩
      | .okResp => ⟨.success, a + 1, s⟩ := rfl

theorem uploadIter_attempts_le (o : Nat → UploadOutcome) :
    ∀ b rc a s, (uploadIter o b rc a s).attempts ≤ a + b := by
  intro b
  induction b with
  | zero => intro rc a s; simp [uploadIter]
  | succ n ih =>
    intro rc a s
    rw [uploadIter_succ]
    cases o (rc + 1) <;> simp only []
    case readErr => exact le_trans (ih (rc + 1) (a + 1) _) (by omega)
    all_goals omega

theorem two_shl_lt_two_shl {k m : Nat} (h : k < m) : 2 <<< k < 2 <<< m := by
  simp only [Nat.shiftLeft_eq]
  have := Nat.pow_lt_pow_right (a := 2) (by norm_num) h
  omega

theorem uploadIter_sleeps_chain (o : Nat → UploadOutcome) :
    ∀ b rc a s, List.Chain' (· < ·) s → (∀ x ∈ s, x < 2 <<< (rc + 1)) →
      List.Chain' (· < ·) (uploadIter o b rc a s).sleeps ∧
      ∀ x ∈ (uploadIter o b rc a s).sleeps, x < 2 <<< (rc + b + 1) := by
  intro b
  induction b with
  | zero =>
    intro rc a s hc hb
    refine ⟨by simpa [uploadIter] using hc, ?_⟩
    intro x hx
    simp only [uploadIter] at hx
    exact hb x hx
  | succ n ih =>
    intro rc a s hc hb
    rw [uploadIter_succ]
    have hmono : (2 <<< (rc + 1)) < 2 <<< (rc + (n + 1) + 1) := by
      exact two_shl_lt_two_shl (by omega)
    cases o (rc + 1) <;> simp only []
    case readErr =>
      have hc' : List.Chain' (· < ·) (s ++ [2 <<< (rc + 1)]) := by
        refine List.Chain'.append hc (by simp) ?_
        intro x hx y hy
        simp only [List.head?_cons, Option.mem_def, Option.some.injEq] at hy
        subst hy
        obtain ⟨hne, rfl⟩ := List.mem_getLast?_eq_getLast hx
        exact hb _ (List.getLast_mem hne)
      have hb' : ∀ x ∈ s ++ [2 <<< (rc + 1)], x < 2 <<< (rc + 1 + 1) := by
        intro x hx
        rcases List.mem_append.mp hx with h | h
        · exact lt_trans (hb x h) (two_shl_lt_two_shl (by omega))
        · simp only [List.mem_singleton] at h
          subst h
          exact two_shl_lt_two_shl (by omega)
      have := ih (rc + 1) (a + 1) (s ++ [2 <<< (rc + 1)]) hc' hb'
      refine ⟨this.1, ?_⟩
      intro x hx
      have := this.2 x hx
      have harith : rc + 1 + n + 1 = rc + (n + 1) + 1 := by omega
      rwa [harith] at this
    all_goals
      refine ⟨hc, ?_⟩
      intro x hx
      exact lt_trans (hb x hx) hmono

/-! ### Claim theorems -/

/-- C2: `uploadGame` makes at most 3 attempts before any return
(including the "Too many retries" error); the backoff sleeps strictly
increase with the attempt number; and an upload failing twice on the
body read then succeeding returns success after exactly three attempts
with sleeps of 4 then 8 seconds. -/
theorem uploadGame_retry_spec (outcomes : Nat → UploadOutcome)
    (h1 : outcomes 1 = .readErr) (h2 : outcomes 2 = .readErr)
    (h3 : outcomes 3 = .okResp) :
    (∀ o : Nat → UploadOutcome,
        (uploadGame o).attempts ≤ 3 ∧ List.Chain' (· < ·) (uploadGame o).sleeps) ∧
    uploadGame outcomes = ⟨.success, 3, [4, 8]⟩ := by
  constructor
  · intro o
    constructor
    · simpa using uploadIter_attempts_le o 3 0 0 []
    · exact (uploadIter_sleeps_chain o 3 0 0 [] (by simp) (by simp)).1
  · show uploadIter outcomes (2 + 1) 0 0 [] = _
    rw [uploadIter_succ, h1]
    show uploadIter outcomes (1 + 1) 1 1 ([] ++ [2 <<< 1]) = _
    rw [uploadIter_succ, h2]
    show uploadIter outcomes (0 + 1) 2 2 ([] ++ [2 <<< 1] ++ [2 <<< 2]) = _
    rw [uploadIter_succ, h3]
    rfl

/-- C2 witness: a concrete outcome stream failing twice then succeeding. -/
theorem uploadGame_retry_spec_witness :
    uploadGame (fun n => if n ≤ 2 then .readErr else .okResp) =
      ⟨.success, 3, [4, 8]⟩ :=
  (uploadGame_retry_spec (fun n => if n ≤ 2 then .readErr else .okResp)
    (by norm_num) (by norm_num) (by norm_num)).2

/-- C3: in match mode, a game where the local instance played black goes
to the `flipped` bucket and one where it did not to the `normal` bucket;
a slot with `Flip` set is paired with the most recently completed game
of the `flipped` bucket and its numeric result (1 for whitewon, -1 for
blackwon, 0 otherwise) is negated, a slot without `Flip` with the most
recent `normal` game unnegated; in particular pairing directly after a
bucket insert consumes exactly the inserted (most recent) game. -/
theorem match_slot_pairing :
    (∀ bs gi, gi.player1 = "black" →
        bucketAdd bs gi = { bs with flipped := bs.flipped ++ [gi] }) ∧
    (∀ bs gi, gi.player1 ≠ "black" →
        bucketAdd bs gi = { bs with normal := bs.normal ++ [gi] }) ∧
    (∀ bs gi r bs', pairSlot true bs = some (gi, r, bs') →
        bs.flipped.getLast? = some gi ∧ r = -resultToNum gi.result ∧
        bs' = { bs with flipped := bs.flipped.dropLast }) ∧
    (∀ bs gi r bs', pairSlot false bs = some (gi, r, bs') →
        bs.normal.getLast? = some gi ∧ r = resultToNum gi.result ∧
        bs' = { bs with normal := bs.normal.dropLast }) ∧
    (∀ bs gi, gi.player1 = "black" →
        pairSlot true (bucketAdd bs gi) = some (gi, -resultToNum gi.result, bs)) ∧
    (∀ bs gi, gi.player1 ≠ "black" →
        pairSlot false (bucketAdd bs gi) = some (gi, resultToNum gi.result, bs)) ∧
    resultToNum "whitewon" = 1 ∧ resultToNum "blackwon" = -1 ∧
    (∀ s, s ≠ "whitewon" → s ≠ "blackwon" → resultToNum s = 0) := by
  refine ⟨?_, ?_, ?_, ?_, ?_, ?_, by decide, by decide, ?_⟩
  · intro bs gi h; simp [bucketAdd, h]
  · intro bs gi h; simp [bucketAdd, h]
  · intro bs gi r bs' h
    cases hl : bs.flipped.getLast? with
    | none => simp [pairSlot, hl] at h
    | some g =>
      simp only [pairSlot, if_true, hl, Option.some.injEq, Prod.mk.injEq] at h
      obtain ⟨rfl, rfl, rfl⟩ := h
      exact ⟨rfl, rfl, rfl⟩
  · intro bs gi r bs' h
    cases hl : bs.normal.getLast? with
    | none => simp [pairSlot, hl] at h
    | some g =>
      simp only [pairSlot, Bool.false_eq_true, if_false, hl, Option.some.injEq,
        Prod.mk.injEq] at h
      obtain ⟨rfl, rfl, rfl⟩ := h
      exact ⟨rfl, rfl, rfl⟩
  · intro bs gi h
    simp [pairSlot, bucketAdd, h, List.getLast?_concat, List.dropLast_concat]
  · intro bs gi h
    simp [pairSlot, bucketAdd, h, List.getLast?_concat, List.dropLast_concat]
  · intro s h1 h2; simp [resultToNum, h1, h2]

/-- C3 witness: a concrete flipped-slot pairing negating a whitewon
result of a black-assigned game. -/
theorem match_slot_pairing_witness :
    pairSlot true
        (bucketAdd ⟨[], []⟩ ⟨"pgn", "f", -1, "black", "whitewon"⟩) =
      some (⟨"pgn", "f", -1, "black", "whitewon"⟩, -1, ⟨[], []⟩) := by
  have := (match_slot_pairing.2.2.2.2.1 ⟨[], []⟩
    ⟨"pgn", "f", -1, "black", "whitewon"⟩ rfl)
  simpa [resultToNum] using this

/-- C10: `NextGame` turns an empty `Sha` in the decoded response into an
error even when the HTTP exchange and decode succeeded, so a call that
returns no error always carries a non-empty `Sha`. -/
theorem nextGame_nonempty_sha (resp : NextGameResponse) (postErr : Option String) :
    (resp.sha.length = 0 →
        (NextGame resp postErr).2 = some "Server gave back empty SHA") ∧
    ((NextGame resp postErr).2 = none → (NextGame resp postErr).1.sha ≠ "") := by
  constructor
  · intro h; simp [NextGame, h]
  · intro h
    by_cases hs : resp.sha.length = 0
    · simp [NextGame, hs] at h
    · have h1 : (NextGame resp postErr).1 = resp := by
        unfold NextGame; split <;> rfl
      rw [h1]
      intro hempty
      exact hs (by rw [hempty]; rfl)

/-- C10 witness: a concrete empty-`Sha` response is rejected, a concrete
non-empty one with no transport error passes its `Sha` through. -/
theorem nextGame_nonempty_sha_witness :
    (NextGame ⟨"train", 0, 0, "", "", "[]", false, 0, "", "", ""⟩ none).2 =
      some "Server gave back empty SHA" :=
  (nextGame_nonempty_sha ⟨"train", 0, 0, "", "", "[]", false, 0, "", "", ""⟩ none).1 rfl

/-- The names `removeAllExcept` removes are exactly the names of the
entries that are neither the protected `sha` nor young enough. -/
theorem removeAllExcept_eq_filter (files : List FileEntry) (sha keep : String) (now : Int) :
    removeAllExcept files sha keep now =
      (files.filter (fun f =>
        decide (f.name ≠ sha ∧ parseDurationNs keep ≤ now - f.modTime))).map
        FileEntry.name := by
  induction files with
  | nil => rfl
  | cons f rest ih =>
    simp only [removeAllExcept, removeAllExceptSplit] at ih ⊢
    by_cases hfs : f.name = sha
    · simp [hfs, ih]
    · by_cases hlt : now - f.modTime < parseDurationNs keep
      · simp [hfs, hlt, ih, not_le.mpr hlt]
      · simp [hfs, hlt, ih, not_lt.mp hlt]

/-- C5 (amended): with retention policy "4h", eviction removes exactly
the entries whose name differs from the requested `sha` and whose age is
at least 4 hours (an entry exactly 4 hours old is removed); the entry
named `sha` is never removed, and entries younger than 4 hours are never
removed. -/
theorem removeAllExcept_four_hours (files : List FileEntry) (now : Int) (sha name : String) :
    (name ∈ removeAllExcept files sha "4h" now ↔
      ∃ f ∈ files, f.name = name ∧ f.name ≠ sha ∧ 4 * nsPerHour ≤ now - f.modTime) ∧
    sha ∉ removeAllExcept files sha "4h" now := by
  have h4 : parseDurationNs "4h" = 4 * nsPerHour := by decide
  have hmem : ∀ nm, nm ∈ removeAllExcept files sha "4h" now ↔
      ∃ f ∈ files, f.name = nm ∧ f.name ≠ sha ∧ 4 * nsPerHour ≤ now - f.modTime := by
    intro nm
    rw [removeAllExcept_eq_filter]
    simp [List.mem_filter, h4]
    constructor
    · rintro ⟨f, ⟨hf, hne, hle⟩, rfl⟩
      exact ⟨f, hf, rfl, hne, hle⟩
    · rintro ⟨f, hf, rfl, hne, hle⟩
      exact ⟨f, ⟨hf, hne, hle⟩, rfl⟩
  refine ⟨hmem name, fun hc => ?_⟩
  obtain ⟨f, _, h1, h2, _⟩ := (hmem sha).1 hc
  exact h2 h1

/-- C5 witness: a concrete eviction keeping the protected entry. -/
theorem removeAllExcept_four_hours_witness :
    "s" ∉ removeAllExcept [⟨"a", [], 0⟩] "s" "4h" (4 * nsPerHour) :=
  (removeAllExcept_four_hours [⟨"a", [], 0⟩] (4 * nsPerHour) "s" "a").2

/-- C5 counterexample: an entry whose age is exactly 4 hours — not
"more than 4 hours in the past" — is nevertheless removed by the code. -/
theorem removeAllExcept_boundary_cex :
    removeAllExcept [⟨"a", [], 0⟩] "s" "4h" (4 * nsPerHour) = ["a"] ∧
    ¬ (4 * nsPerHour < (4 * nsPerHour : Int) - 0) := by decide

theorem lookupFile_removeFile_self (fs : List FileEntry) (n : String) :
    lookupFile (removeFile fs n) n = none := by
  induction fs with
  | nil => rfl
  | cons f rest ih =>
    by_cases h : f.name = n
    · simpa [removeFile, h] using ih
    · simpa [removeFile, lookupFile, h] using ih

/-- A successful `checkValidNetwork` leaves the directory untouched,
returns the cache path, and certifies the round-trip integrity of the
stored entry. -/
theorem checkValidNetwork_ok (cr : Crypto) (fs : List FileEntry) (sha p : String)
    (hp : (checkValidNetwork cr fs sha).2 = .ok p) :
    checkValidNetwork cr fs sha = (fs, .ok (cachePath sha)) ∧ p = cachePath sha ∧
    ∃ c raw, lookupFile fs sha = some c ∧ cr.gunzip c = some raw ∧
      cr.sha256hex raw = sha := by
  unfold checkValidNetwork at hp
  cases hc : lookupFile fs sha with
  | none => simp only [hc] at hp; simp at hp
  | some c =>
    simp only [hc] at hp
    cases hg : cr.gunzip c with
    | none => simp only [hg] at hp; simp at hp
    | some raw =>
      simp only [hg] at hp
      by_cases hsha : sha ≠ cr.sha256hex raw
      · simp only [if_pos hsha] at hp; simp at hp
      · simp only [if_neg hsha] at hp
        have hred : checkValidNetwork cr fs sha = (fs, .ok (cachePath sha)) := by
          unfold checkValidNetwork
          simp only [hc, hg, if_neg hsha]
        exact ⟨hred, (Except.ok.inj hp).symm, c, raw, rfl, hg, (not_ne_iff.mp hsha).symm⟩

/-- A failed verification leaves no entry named `sha` behind, and an
entry that is present but does not verify is actively deleted with an
error returned. -/
theorem checkValidNetwork_invalid (cr : Crypto) (fs : List FileEntry) (sha : String)
    (c : List Nat) (hc : lookupFile fs sha = some c)
    (hbad : ∀ raw, cr.gunzip c = some raw → cr.sha256hex raw ≠ sha) :
    (∃ e, (checkValidNetwork cr fs sha).2 = .error e) ∧
    lookupFile (checkValidNetwork cr fs sha).1 sha = none := by
  unfold checkValidNetwork
  simp only [hc]
  cases hg : cr.gunzip c with
  | none =>
    simp only [hg]
    exact ⟨⟨"gzip error", rfl⟩, lookupFile_removeFile_self fs sha⟩
  | some raw =>
    have hne : sha ≠ cr.sha256hex raw := fun h => hbad raw hg h.symm
    simp only [hg, if_pos hne]
    exact ⟨⟨"sha mismatch", rfl⟩, lookupFile_removeFile_self fs sha⟩

/-- Whatever `checkValidNetwork` does, any entry named `sha` still
present afterwards was already present with the same content. -/
theorem checkValidNetwork_no_write (cr : Crypto) (fs : List FileEntry) (sha : String)
    (c : List Nat) (h : lookupFile (checkValidNetwork cr fs sha).1 sha = some c) :
    lookupFile fs sha = some c := by
  unfold checkValidNetwork at h
  cases hc : lookupFile fs sha with
  | none => simp only [hc] at h; exact h
  | some c0 =>
    simp only [hc] at h
    cases hg : cr.gunzip c0 with
    | none =>
      simp only [hg, lookupFile_removeFile_self] at h
      exact absurd h (by simp)
    | some raw =>
      simp only [hg] at h
      by_cases hsha : sha ≠ cr.sha256hex raw
      · simp only [if_pos hsha, lookupFile_removeFile_self] at h
        exact absurd h (by simp)
      · simp only [if_neg hsha] at h
        rw [← hc]
        exact h

/-- Eviction never touches the entry named `sha`. -/
theorem removeAllExceptSplit_lookup_self (files : List FileEntry) (sha keep : String)
    (now : Int) :
    lookupFile (removeAllExceptSplit files sha keep now).1 sha = lookupFile files sha := by
  induction files with
  | nil => rfl
  | cons f rest ih =>
    simp only [removeAllExceptSplit]
    by_cases hfs : f.name = sha
    · simp [hfs, lookupFile]
    · by_cases hlt : now - f.modTime < parseDurationNs keep
      · simpa [hfs, hlt, lookupFile] using ih
      · simpa [hfs, hlt, lookupFile] using ih

/-- The directory contents `getNetwork` verifies against, after the
retention pass. -/
def evictedFs (fs0 : List FileEntry) (sha keepTime : String) (now : Int) :
    List FileEntry :=
  if keepTime ≠ infKeep then (removeAllExceptSplit fs0 sha keepTime now).1 else fs0

theorem evictedFs_lookup_self (fs0 : List FileEntry) (sha keepTime : String) (now : Int) :
    lookupFile (evictedFs fs0 sha keepTime now) sha = lookupFile fs0 sha := by
  unfold evictedFs
  split
  · exact removeAllExceptSplit_lookup_self fs0 sha keepTime now
  · rfl

/-- C6: whenever `getNetwork` returns a path without error, the entry
cached at that path gunzip-decompresses to bytes whose digest is exactly
the requested `sha`; and whenever verification finds a present entry
that does not hash back to `sha`, the entry is deleted and an error is
returned. -/
theorem getNetwork_integrity (cr : Crypto) (server : String → Option (List Nat))
    (locks : List String) (fs0 : List FileEntry) (sha keepTime : String) (now : Int) :
    (∀ p, (getNetwork cr server locks fs0 sha keepTime now).res = .ok p →
        p = cachePath sha ∧
        ∃ c raw,
          lookupFile (getNetwork cr server locks fs0 sha keepTime now).fs sha = some c ∧
          cr.gunzip c = some raw ∧ cr.sha256hex raw = sha) ∧
    (∀ fs c, lookupFile fs sha = some c →
        (∀ raw, cr.gunzip c = some raw → cr.sha256hex raw ≠ sha) →
        (∃ e, (checkValidNetwork cr fs sha).2 = .error e) ∧
          lookupFile (checkValidNetwork cr fs sha).1 sha = none) := by
  constructor
  · intro p hp
    unfold getNetwork at hp ⊢
    simp only [] at hp ⊢
    rcases hcv : (checkValidNetwork cr
        (if keepTime ≠ infKeep then (removeAllExceptSplit fs0 sha keepTime now).1 else fs0)
        sha).2 with e | q
    · simp only [hcv] at hp ⊢
      by_cases hl : locks.contains (lockName sha)
      · simp only [if_pos hl] at hp; simp at hp
      · simp only [if_neg hl] at hp ⊢
        cases hs : server sha with
        | none => simp only [hs] at hp; simp at hp
        | some content =>
          simp only [hs] at hp ⊢
          obtain ⟨heq, hpath, c, raw, hlook, hg, hsha⟩ :=
            checkValidNetwork_ok cr _ sha p hp
          refine ⟨hpath, c, raw, ?_, hg, hsha⟩
          rw [heq]
          exact hlook
    · simp only [hcv] at hp ⊢
      simp only [Except.ok.injEq] at hp
      obtain ⟨heq, hpath, c, raw, hlook, hg, hsha⟩ :=
        checkValidNetwork_ok cr _ sha q hcv
      subst hp
      refine ⟨hpath, c, raw, ?_, hg, hsha⟩
      rw [heq]
      exact hlook
  · intro fs c hc hbad
    exact checkValidNetwork_invalid cr fs sha c hc hbad

/-- C6 witness: a concrete download through `getNetwork` whose cached
result round-trips to the requested digest. -/
theorem getNetwork_integrity_witness :
    cachePath "aa" = cachePath "aa" ∧
    ∃ c raw, lookupFile (getNetwork crypto0 server0 [] [] "aa" infKeep 0).fs "aa" = some c ∧
      crypto0.gunzip c = some raw ∧ crypto0.sha256hex raw = "aa" :=
  (getNetwork_integrity crypto0 server0 [] [] "aa" infKeep 0).1 (cachePath "aa") rfl

theorem validCached_congr (cr : Crypto) (fs1 fs2 : List FileEntry) (sha : String)
    (h : lookupFile fs1 sha = lookupFile fs2 sha) :
    validCached cr fs1 sha = validCached cr fs2 sha := by
  unfold validCached
  rw [h]

theorem validCached_false_cvn (cr : Crypto) (fs : List FileEntry) (sha : String)
    (h : validCached cr fs sha = false) :
    ∃ e, (checkValidNetwork cr fs sha).2 = .error e := by
  unfold validCached at h
  unfold checkValidNetwork
  cases hc : lookupFile fs sha with
  | none => simp only [hc]; exact ⟨_, rfl⟩
  | some c =>
    simp only [hc] at h ⊢
    cases hg : cr.gunzip c with
    | none => simp only [hg]; exact ⟨_, rfl⟩
    | some raw =>
      simp only [hg] at h ⊢
      have hne : sha ≠ cr.sha256hex raw := of_decide_eq_false h
      rw [if_pos hne]
      exact ⟨_, rfl⟩

/-- C7: when no verified cached copy of `sha` exists and another process
holds the advisory lock, `getNetwork` returns the busy error, issues no
download, and writes no entry for that identifier (any entry still
present afterwards already existed with the same content). -/
theorem getNetwork_lock_busy (cr : Crypto) (server : String → Option (List Nat))
    (locks : List String) (fs0 : List FileEntry) (sha keepTime : String) (now : Int)
    (hlock : locks.contains (lockName sha) = true)
    (hnv : validCached cr fs0 sha = false) :
    (getNetwork cr server locks fs0 sha keepTime now).res = .error lockBusyMsg ∧
    (getNetwork cr server locks fs0 sha keepTime now).downloaded = false ∧
    ∀ c, lookupFile (getNetwork cr server locks fs0 sha keepTime now).fs sha = some c →
      lookupFile fs0 sha = some c := by
  have hl1 : lookupFile
      (if keepTime ≠ infKeep then (removeAllExceptSplit fs0 sha keepTime now).1 else fs0)
      sha = lookupFile fs0 sha := evictedFs_lookup_self fs0 sha keepTime now
  have hnv1 : validCached cr
      (if keepTime ≠ infKeep then (removeAllExceptSplit fs0 sha keepTime now).1 else fs0)
      sha = false := by
    rw [validCached_congr cr _ fs0 sha hl1]
    exact hnv
  obtain ⟨e, he⟩ := validCached_false_cvn cr _ sha hnv1
  unfold getNetwork
  simp only [he, hlock, if_true]
  refine ⟨trivial, trivial, ?_⟩
  intro c hc2
  have h3 := checkValidNetwork_no_write cr _ sha c hc2
  rw [hl1] at h3
  exact h3

/-- C7 witness: a concrete busy lock blocks the download. -/
theorem getNetwork_lock_busy_witness :
    (getNetwork crypto0 server0 [lockName "aa"] [] "aa" infKeep 0).res =
      .error lockBusyMsg ∧
    (getNetwork crypto0 server0 [lockName "aa"] [] "aa" infKeep 0).downloaded = false :=
  ⟨(getNetwork_lock_busy crypto0 server0 [lockName "aa"] [] "aa" infKeep 0 rfl rfl).1,
   (getNetwork_lock_busy crypto0 server0 [lockName "aa"] [] "aa" infKeep 0 rfl rfl).2.1⟩

theorem handleGameReady_fp16 (ext : Ext) (st : PState) (line : String) :
    ((handleGameReady ext st line).1).hasCudnnFp16 = st.hasCudnnFp16 := by
  unfold handleGameReady
  cases hcore : handleGameReadyCore ext line <;> rfl

theorem processLine_fp16_mono (cfg : Config) (ext : Ext) (st : PState) (line : String)
    (h : st.hasCudnnFp16 = false) :
    ((processLine cfg ext st line).1).hasCudnnFp16 = false := by
  unfold processLine
  cases hcl : classifyLine line
  all_goals try exact h
  case gpuNoFp16 =>
    show ((if cfg.backopts = "" then
        ({ st with hasCudnnFp16 := false }, LineOut.ok [Event.retry])
      else (st, LineOut.fatal)).1).hasCudnnFp16 = false
    by_cases hb : cfg.backopts = ""
    · rw [if_pos hb]
    · rw [if_neg hb]; exact h
  case gameready =>
    show ((handleGameReady ext st line).1).hasCudnnFp16 = false
    rw [handleGameReady_fp16]
    exact h

theorem processLines_fp16_mono (cfg : Config) (ext : Ext) :
    ∀ (lines : List String) (st : PState), st.hasCudnnFp16 = false →
      ((processLines cfg ext st lines).1).hasCudnnFp16 = false := by
  intro lines
  induction lines with
  | nil => intro st h; simpa [processLines] using h
  | cons l rest ih =>
    intro st h
    have hm := processLine_fp16_mono cfg ext st l h
    simp only [processLines]
    cases hp : processLine cfg ext st l with
    | mk st' out =>
      rw [hp] at hm
      cases out with
      | fatal => exact hm
      | ok evs => exact ih st' hm

theorem trainLoop_fp16_mono (up : GameInfo → Option String) (cfg : Config) :
    ∀ (events : List TrainEvent) (st : TState), st.hasCudnnFp16 = false →
      ((trainLoop up cfg st events).1).hasCudnnFp16 = false := by
  intro events
  induction events with
  | nil => intro st h; simpa [trainLoop] using h
  | cons e rest ih =>
    intro st h
    cases e with
    | retry => simpa [trainLoop] using h
    | done => simpa [trainLoop] using h
    | bestMove ok => simpa [trainLoop] using ih st h
    | giClosed =>
      simp only [trainLoop]
      split
      · rfl
      · exact h
    | gi g =>
      simp only [trainLoop]
      apply ih
      exact h

theorem string_append_ne (a b g : String) (h : a.data.length ≠ b.data.length) :
    a ++ g ≠ b ++ g := by
  intro he
  apply h
  have hd := congrArg (fun s : String => s.data.length) he
  have hda : (a ++ g).data = a.data ++ g.data := rfl
  have hdb : (b ++ g).data = b.data ++ g.data := rfl
  simp only [hda, hdb, List.length_append] at hd
  omega

/-- C1 (amended): once `hasCudnnFp16` is false it stays false through
every subsequent output line, line sequence, and `train` loop (nothing
at runtime re-enables it), and with no `--backend-opts` override every
subsequent `launch` selects a strictly lower-preference backend than
`cudnn-fp16` — synthesizing the `cudnn`, `dx12`-check or `opencl`
argument, or, when no lower-preference capability was probed, no
`--backend-opts` argument at all (so the claim's "always names a
lower-preference backend" fails exactly in that last case). -/
theorem cudnnFp16_revocation_sticky :
    (∀ cfg ext st line, st.hasCudnnFp16 = false →
        ((processLine cfg ext st line).1).hasCudnnFp16 = false) ∧
    (∀ cfg ext st lines, st.hasCudnnFp16 = false →
        ((processLines cfg ext st lines).1).hasCudnnFp16 = false) ∧
    (∀ up cfg st0 events, st0.hasCudnnFp16 = false →
        (trainModel up cfg st0 events).fp16After = false) ∧
    (∀ caps g, caps.hasCudnnFp16 = false →
        prefRank BackendSel.fp16 < prefRank (launchBackendSel "" caps) ∧
        backendOptsArg "" g caps ≠ some ("--backend-opts=backend=cudnn-fp16" ++ g) ∧
        (backendOptsArg "" g caps = none ∨
          backendOptsArg "" g caps = some ("--backend-opts=backend=cudnn" ++ g) ∨
          backendOptsArg "" g caps =
            some ("--backend-opts=check(freq=1e-5,atol=5e-1,dx12" ++ g ++ ")") ∨
          backendOptsArg "" g caps = some ("--backend-opts=backend=opencl" ++ g))) := by
  refine ⟨processLine_fp16_mono, fun cfg ext st lines h =>
    processLines_fp16_mono cfg ext lines st h, ?_, ?_⟩
  · intro up cfg st0 events h
    have hm := trainLoop_fp16_mono up cfg events st0 h
    unfold trainModel
    cases hl : trainLoop up cfg st0 events with
    | mk st ex =>
      rw [hl] at hm
      cases ex <;> simpa using hm
  · intro caps g h
    obtain ⟨f16, cu, dx, ocl, bl⟩ := caps
    simp only at h
    subst h
    cases cu <;> cases dx <;> cases ocl <;>
      simp [launchBackendSel, backendOptsArg, prefRank] <;>
      (intro hcon
       have hx := congrArg (fun s : String => s.data.length) hcon
       simp only [String.data_append, List.length_append, List.length_cons,
         List.length_nil] at hx
       omega)

/-- C1 counterexample: a reachable revocation leaves no lower-preference
backend to name.  With a `--help` output listing only `cudnn-fp16`,
`checkLc0` clears `hasCudnn` (its only `cudnn` occurrence is inside
`cudnn-fp16`); the runtime FP16 diagnostic then revokes `hasCudnnFp16`
and requests a retry, after which `launch` synthesizes no
`--backend-opts` argument at all — so the claimed "the synthesized
`--backend-opts` argument names a lower-preference backend" fails for
that subsequent launch. -/
theorem cudnnFp16_no_lower_backend_cex :
    checkLc0 "cudnn-fp16" = ⟨true, false, false, false, false⟩ ∧
    ((processLine ⟨"", false⟩ ext0 ⟨-1, true, false, "v0.10.0", "Unknown"⟩
        "Your GPU doesn't support FP16").1).hasCudnnFp16 = false ∧
    (processLine ⟨"", false⟩ ext0 ⟨-1, true, false, "v0.10.0", "Unknown"⟩
        "Your GPU doesn't support FP16").2 = .ok [.retry] ∧
    backendOptsArg "" "" ⟨false, false, false, false, false⟩ = none := by
  refine ⟨by decide, rfl, rfl, rfl⟩

/-- C1 witness: the stickiness theorem applied to a concrete revoked
state and output line. -/
theorem cudnnFp16_revocation_sticky_witness :
    ((processLine ⟨"", false⟩ ext0 ⟨-1, false, false, "v", "g"⟩ "info").1).hasCudnnFp16
      = false :=
  cudnnFp16_revocation_sticky.1 ⟨"", false⟩ ext0 ⟨-1, false, false, "v", "g"⟩ "info" rfl

/-- A line classified `resign_report` only updates the pending threshold
and publishes nothing. -/
theorem processLine_resign (cfg : Config) (ext : Ext) (st : PState) (line : String)
    (hcl : classifyLine line = .resignReport) :
    processLine cfg ext st line =
      ({ st with last_fp_threshold := resignNewLast ext.pf line st.last_fp_threshold },
       .ok []) := by
  unfold processLine
  rw [hcl]

/-- Whenever a processed line publishes a game, the game carries the
pending resign threshold and the pending threshold resets to `-1`. -/
theorem processLine_game_emit (cfg : Config) (ext : Ext) (st : PState) (line : String)
    (st' : PState) (gi : GameInfo)
    (h : processLine cfg ext st line = (st', .ok [.game gi])) :
    gi.fp_threshold = st.last_fp_threshold ∧ st'.last_fp_threshold = -1 := by
  unfold processLine at h
  cases hcl : classifyLine line <;> rw [hcl] at h
  case gpuNoFp16 =>
    by_cases hb : cfg.backopts = ""
    · rw [if_pos hb] at h; simp at h
    · rw [if_neg hb] at h; simp at h
  case gameready =>
    unfold handleGameReady at h
    cases hcore : handleGameReadyCore ext line <;> rw [hcore] at h
    case skip => simp at h
    case fatalOut => simp at h
    case emit d =>
      simp only [Prod.mk.injEq, LineOut.ok.injEq, List.cons.injEq, Event.game.injEq,
        and_true] at h
      obtain ⟨hst, hgi⟩ := h
      subst hst
      subst hgi
      exact ⟨rfl, rfl⟩
  all_goals simp at h

/-- C4: a `resign_report` line with a parsable threshold followed by a
gameready-published game yields a game carrying that threshold; the next
published game with no new `resign_report` in between carries `-1`; and
a `resign_report` whose threshold fails to parse resets the pending
value to `-1`. -/
theorem resign_threshold_plumbing (cfg : Config) (ext : Ext)
    (st0 st1 st2 st3 : PState) (r g1 g2 : String) (v : ℚ) (gi1 gi2 : GameInfo)
    (hcl : classifyLine r = .resignReport)
    (hidx : 0 ≤ resignFpIdx (splitSpaces r))
    (hv : ext.pf ((splitSpaces r).getD (resignFpIdx (splitSpaces r)).toNat "") = some v)
    (hr : processLine cfg ext st0 r = (st1, .ok []))
    (hg1 : processLine cfg ext st1 g1 = (st2, .ok [.game gi1]))
    (hg2 : processLine cfg ext st2 g2 = (st3, .ok [.game gi2])) :
    gi1.fp_threshold = v ∧ gi2.fp_threshold = -1 ∧
    (∀ st r', classifyLine r' = .resignReport →
        0 ≤ resignFpIdx (splitSpaces r') →
        ext.pf ((splitSpaces r').getD (resignFpIdx (splitSpaces r')).toNat "") = none →
        ((processLine cfg ext st r').1).last_fp_threshold = -1) := by
  have hst1 : st1.last_fp_threshold = v := by
    rw [processLine_resign cfg ext st0 r hcl] at hr
    have h1 : ({ st0 with
        last_fp_threshold := resignNewLast ext.pf r st0.last_fp_threshold } : PState)
        = st1 := congrArg Prod.fst hr
    rw [← h1]
    show resignNewLast ext.pf r st0.last_fp_threshold = v
    simp only [resignNewLast]
    rw [if_pos hidx, hv]
  obtain ⟨hth1, hreset1⟩ := processLine_game_emit cfg ext st1 g1 st2 gi1 hg1
  obtain ⟨hth2, -⟩ := processLine_game_emit cfg ext st2 g2 st3 gi2 hg2
  refine ⟨by rw [hth1, hst1], by rw [hth2, hreset1], ?_⟩
  intro st r' hcl' hidx' hnone
  rw [processLine_resign cfg ext st r' hcl']
  show resignNewLast ext.pf r' st.last_fp_threshold = -1
  simp only [resignNewLast]
  rw [if_pos hidx', hnone]

/-- C4 witness: a concrete resign report followed by two gameready
lines. -/
theorem resign_threshold_plumbing_witness :
    (⟨"1. e4 * \x7bOL: -1\x7d", "f", (1 : ℚ)/2, "", ""⟩ : GameInfo).fp_threshold
      = (1 : ℚ)/2 ∧
    (⟨"1. e4 * \x7bOL: -1\x7d", "f", (-1 : ℚ), "", ""⟩ : GameInfo).fp_threshold
      = (-1 : ℚ) := by
  have h := resign_threshold_plumbing ⟨"", false⟩ ext0
    ⟨-1, true, false, "v", "g"⟩ ⟨(1 : ℚ)/2, true, false, "v", "g"⟩
    ⟨-1, true, false, "v", "g"⟩ ⟨-1, true, false, "v", "g"⟩
    "resign_report fp_threshold 0.5"
    "gameready trainingfile f gameid 22 moves e2e4"
    "gameready trainingfile f gameid 22 moves e2e4"
    ((1 : ℚ)/2)
    ⟨"1. e4 * \x7bOL: -1\x7d", "f", (1 : ℚ)/2, "", ""⟩
    ⟨"1. e4 * \x7bOL: -1\x7d", "f", (-1 : ℚ), "", ""⟩
    (by decide) (by decide) rfl rfl rfl rfl
  exact ⟨h.1, h.2.1⟩

/-- C9 (amended): a `gameready` line missing any of the expected
`trainingfile`/`gameid`/`moves` markers is logged and skipped with the
state unchanged, and processing of subsequent lines continues; however —
contrary to the claim — a gameready line whose move list the PGN
converter cannot replay is fatal (`log.Fatalf` terminates the process
and with it the parsing loop), as the counterexample shows. -/
theorem malformed_line_handling :
    (∀ cfg ext st line, classifyLine line = .gameready →
        (strIndexOf line "trainingfile" < 0 ∨ strLastIndexOf line "gameid" < 0 ∨
          strLastIndexOf line "moves" < 0) →
        processLine cfg ext st line = (st, .ok [])) ∧
    (∀ cfg ext st line rest, processLine cfg ext st line = (st, .ok []) →
        processLines cfg ext st (line :: rest) = processLines cfg ext st rest) := by
  constructor
  · intro cfg ext st line hcl hbad
    unfold processLine
    rw [hcl]
    show handleGameReady ext st line = (st, .ok [])
    unfold handleGameReady
    have hskip : handleGameReadyCore ext line = .skip := by
      unfold handleGameReadyCore
      simp only [if_pos hbad]
    rw [hskip]
  · intro cfg ext st line rest h
    simp only [processLines, h, List.nil_append]

/-- C9 witness: a concrete marker-less gameready line is skipped with
the state unchanged. -/
theorem malformed_line_handling_witness :
    processLine ⟨"", false⟩ ext0 ⟨-1, false, false, "v", "g"⟩ "gameready nomarkers" =
      (⟨-1, false, false, "v", "g"⟩, .ok []) :=
  malformed_line_handling.1 ⟨"", false⟩ ext0 ⟨-1, false, false, "v", "g"⟩
    "gameready nomarkers" (by decide) (by decide)

/-- C9 counterexample: a well-marked gameready line whose move list the
chess library rejects makes the scanner fatal (the process terminates),
and a following `info` line is never processed — refuting "a malformed
line by itself never terminates the process or the parsing loop". -/
theorem malformed_line_fatal_cex :
    (processLine ⟨"", false⟩ extBad ⟨-1, false, false, "v", "g"⟩
        "gameready trainingfile f gameid 22 moves e2e4").2 = .fatal ∧
    (processLines ⟨"", false⟩ extBad ⟨-1, false, false, "v", "g"⟩
        ["gameready trainingfile f gameid 22 moves e2e4", "info"]).2.2 = true ∧
    ((processLines ⟨"", false⟩ extBad ⟨-1, false, false, "v", "g"⟩
        ["gameready trainingfile f gameid 22 moves e2e4", "info"]).1).testedCudnnFp16
      = false :=
  ⟨rfl, rfl, rfl⟩

/-- The `train` loop's exit decision and non-upload state do not depend
on the upload results, which the code discards. -/
theorem trainLoop_core_agree (cfg : Config) :
    ∀ (events : List TrainEvent) (up1 up2 : GameInfo → Option String) (st1 st2 : TState),
      st1.core = st2.core →
      ((trainLoop up1 cfg st1 events).1).core = ((trainLoop up2 cfg st2 events).1).core ∧
      (trainLoop up1 cfg st1 events).2 = (trainLoop up2 cfg st2 events).2 := by
  intro events
  induction events with
  | nil =>
    intro up1 up2 st1 st2 h
    simp only [trainLoop]
    exact ⟨h, by trivial⟩
  | cons e rest ih =>
    intro up1 up2 st1 st2 h
    have h1 : st1.hasCudnnFp16 = st2.hasCudnnFp16 :=
      congrArg (fun c : Bool × Bool × Nat × Bool => c.1) h
    have h2 : st1.testedCudnnFp16 = st2.testedCudnnFp16 :=
      congrArg (fun c : Bool × Bool × Nat × Bool => c.2.1) h
    have h3 : st1.numGames = st2.numGames :=
      congrArg (fun c : Bool × Bool × Nat × Bool => c.2.2.1) h
    have h4 : st1.progressOrKill = st2.progressOrKill :=
      congrArg (fun c : Bool × Bool × Nat × Bool => c.2.2.2) h
    cases e with
    | retry =>
      simp only [trainLoop]
      exact ⟨h, by trivial⟩
    | done =>
      simp only [trainLoop]
      refine ⟨?_, by trivial⟩
      simp [TState.core, h1, h2, h3]
    | bestMove ok =>
      simp only [trainLoop]
      exact ih up1 up2 st1 st2 h
    | giClosed =>
      simp only [trainLoop]
      by_cases hc : st1.hasCudnnFp16 ∧ st1.testedCudnnFp16 = false ∧ cfg.backopts = ""
      · rw [if_pos hc, if_pos (by rw [← h1, ← h2]; exact hc)]
        refine ⟨?_, by trivial⟩
        simp [TState.core, h2, h3, h4]
      · rw [if_neg hc, if_neg (by rw [← h1, ← h2]; exact hc)]
        exact ⟨h, by trivial⟩
    | gi g =>
      simp only [trainLoop]
      apply ih
      simp [TState.core, h1, h3]

/-- The result and join behaviour of `train` do not depend on the upload
outcomes. -/
theorem trainModel_err_eq (up1 up2 : GameInfo → Option String) (cfg : Config)
    (st0 : TState) (events : List TrainEvent) :
    (trainModel up1 cfg st0 events).err = (trainModel up2 cfg st0 events).err ∧
    (trainModel up1 cfg st0 events).joined = (trainModel up2 cfg st0 events).joined := by
  obtain ⟨hcore, hexit⟩ := trainLoop_core_agree cfg events up1 up2 st0 st0 rfl
  unfold trainModel
  cases hl1 : trainLoop up1 cfg st0 events with
  | mk s1 e1 =>
    cases hl2 : trainLoop up2 cfg st0 events with
    | mk s2 e2 =>
      rw [hl1, hl2] at hcore hexit
      simp only at hexit
      subst hexit
      cases e1 with
      | retryExit => exact ⟨by trivial, by trivial⟩
      | normalExit =>
        have hp : s1.progressOrKill = s2.progressOrKill :=
          congrArg (fun c : Bool × Bool × Nat × Bool => c.2.2.2) hcore
        simp only [hp]
        exact ⟨by trivial, by trivial⟩

/-- Every upload record the loop accumulates is the completed result of
`uploadGame` on the spawned game. -/
theorem trainLoop_uploads (up : GameInfo → Option String) (cfg : Config) :
    ∀ (events : List TrainEvent) (st : TState),
      (∀ p ∈ st.uploads, p.2 = up p.1) →
      ∀ p ∈ ((trainLoop up cfg st events).1).uploads, p.2 = up p.1 := by
  intro events
  induction events with
  | nil => intro st h; simpa [trainLoop] using h
  | cons e rest ih =>
    intro st h
    cases e with
    | retry => simpa [trainLoop] using h
    | done => simpa [trainLoop] using h
    | bestMove ok => simpa [trainLoop] using ih st h
    | giClosed =>
      simp only [trainLoop]
      split
      · simpa using h
      · simpa using h
    | gi g =>
      simp only [trainLoop]
      apply ih
      intro p hp
      rcases List.mem_append.mp hp with hin | hnew
      · exact h p hin
      · simp only [List.mem_singleton] at hnew
        subst hnew
        rfl

/-- C8 (amended): on every exit path other than the backend-retry one,
`train` joins all spawned upload workers before returning, and every
recorded upload is the completed `uploadGame` result for its game; but
the returned error is independent of the upload outcomes — an exhausted
upload retry budget is logged inside `uploadGame` and dropped, never
surfaced to `train`'s caller. -/
theorem train_upload_join_spec :
    (∀ up cfg st0 events, (trainModel up cfg st0 events).err ≠ some "retry" →
        (trainModel up cfg st0 events).joined = true) ∧
    (∀ up1 up2 cfg st0 events,
        (trainModel up1 cfg st0 events).err = (trainModel up2 cfg st0 events).err) ∧
    (∀ up cfg st0 events, (∀ p ∈ st0.uploads, p.2 = up p.1) →
        ∀ p ∈ (trainModel up cfg st0 events).uploads, p.2 = up p.1) := by
  refine ⟨?_, fun up1 up2 cfg st0 events => (trainModel_err_eq up1 up2 cfg st0 events).1, ?_⟩
  · intro up cfg st0 events hne
    unfold trainModel at hne ⊢
    cases hl : trainLoop up cfg st0 events with
    | mk s e =>
      rw [hl] at hne
      cases e with
      | retryExit => exact absurd rfl hne
      | normalExit => rfl
  · intro up cfg st0 events h0
    unfold trainModel
    cases hl : trainLoop up cfg st0 events with
    | mk s e =>
      have := trainLoop_uploads up cfg events st0 h0
      rw [hl] at this
      cases e <;> exact this

/-- C8 witness: the join guarantee applied to a concrete run. -/
theorem train_upload_join_spec_witness :
    (trainModel (fun _ => none) ⟨"", false⟩ ⟨false, false, 1, false, []⟩
        [.done]).joined = true :=
  train_upload_join_spec.1 (fun _ => none) ⟨"", false⟩ ⟨false, false, 1, false, []⟩
    [.done] (by decide)

/-- C8 counterexample: a game whose upload exhausts all three retries
(the genuine `uploadGame` "Too many retries" failure) is recorded, yet
`train` still returns no error — the upload failure is silently dropped
rather than surfaced to the caller. -/
theorem train_upload_failure_dropped_cex :
    trainModel (fun _ => uploadErrString (uploadGame (fun _ => .readErr)).result)
        ⟨"", false⟩ ⟨false, false, 1, false, []⟩ [.gi gi0, .done] =
      ⟨none, true, [(gi0, some "UploadGame failed: Too many retries")], false⟩ := by
  rfl

end LcZeroClient
